import Mathlib

/-!
Shallow embedding of the trading-engine core:
`src/backend/app/engine/rule_engine.py` (rule evaluation) and
`src/backend/app/api/v1/websocket.py` (subscription/broadcast hub).

Python floats are modelled as exact rationals (ℚ); `round(x, 2)` is
modelled as round-half-to-even at two decimals on ℚ.  A snapshot value
(`Any` in the source) is a `Value`: a number, a string, or Python's
`None`.  Where the Python code would raise an uncaught exception
(a `TypeError` comparing a non-number), the embedding returns `none`
in an `Option`-valued function.
-/

/-- A value stored in a market-data snapshot (`Any` in the source):
a number, a string, or Python `None`. -/
inductive Value where
  | num (q : ℚ)
  | str (s : String)
  | null
deriving DecidableEq, Repr

/-- A market-data snapshot: `Dict[str, Any]`, modelled as an association
list (keys are unique in a Python dict; lookup takes the first match). -/
abbrev MarketData := List (String × Value)

/-- `market_data.get(k)`: `none` when the key is absent. -/
def mdGet (md : MarketData) (k : String) : Option Value :=
  (md.find? (fun p => p.1 == k)).map (fun p => p.2)

/-- `k in market_data`: key membership (true even when the stored value is `None`). -/
def hasKey (md : MarketData) (k : String) : Bool :=
  md.any (fun p => p.1 == k)

/-- Python truthiness of a snapshot value (`0`, `""` and `None` are falsy). -/
def truthy : Value → Bool
  | Value.num q => q != 0
  | Value.str s => !s.isEmpty
  | Value.null => false

/-- Python truthiness of an optional float field (`None` and `0.0` are falsy). -/
def optTruthy : Option ℚ → Bool
  | some q => q != 0
  | none => false

/-- A numeric value, or `none` where Python would raise a `TypeError`
(using a string or `None` in arithmetic / an ordered comparison). -/
def asNum : Value → Option ℚ
  | Value.num q => some q
  | _ => none

/-- Digits to a natural number, most significant first. -/
def digitsToNat (l : List Char) : Nat :=
  l.foldl (fun a c => a * 10 + (c.toNat - 48)) 0

/-- Unsigned decimal literal: `digits`, `digits.digits`, `digits.` or `.digits`. -/
def parseUnsigned (cs : List Char) : Option ℚ :=
  let intPart := cs.takeWhile Char.isDigit
  let rest := cs.dropWhile Char.isDigit
  match rest with
  | [] => if intPart.isEmpty then none else some ((digitsToNat intPart : ℚ))
  | '.' :: frac =>
      if frac.all Char.isDigit then
        if intPart.isEmpty && frac.isEmpty then none
        else some ((digitsToNat intPart : ℚ) + (digitsToNat frac : ℚ) / ((10 : ℚ) ^ frac.length))
      else none
  | _ => none

/-- Python `float(s)` on a string: optional surrounding whitespace, optional
sign, decimal digits with an optional fractional part.  `none` models a
`ValueError` (exotic accepted forms such as exponents, `inf`, `nan` are
outside the fragment exercised by the rule configs). -/
def strFloat (s : String) : Option ℚ :=
  let cs := ((s.toList.dropWhile Char.isWhitespace).reverse.dropWhile Char.isWhitespace).reverse
  match cs with
  | '-' :: rest => (parseUnsigned rest).map (fun q => -q)
  | '+' :: rest => parseUnsigned rest
  | rest => parseUnsigned rest

/-- Python `float(v)` on a snapshot value; `none` models the
`ValueError`/`TypeError` that the callers catch. -/
def pyFloat : Value → Option ℚ
  | Value.num q => some q
  | Value.str s => strFloat s
  | Value.null => none

/-- Round half to even (Python's `round` on an exact value). -/
def rhe (q : ℚ) : ℤ :=
  let f := ⌊q⌋
  let r := q - (f : ℚ)
  if r < 1/2 then f
  else if r > 1/2 then f + 1
  else if f % 2 = 0 then f else f + 1

/-- Python `round(x, 2)` modelled exactly on ℚ. -/
def round2 (q : ℚ) : ℚ := ((rhe (q * 100) : ℚ)) / 100

/-- The six comparison operators of `OperatorType`. -/
inductive OperatorType where
  | gt
  | gte
  | lt
  | lte
  | eq
  | neq
deriving DecidableEq, Repr

/-- The symbol of an operator (`OperatorType.value` in the source). -/
def opSymbol : OperatorType → String
  | OperatorType.gt => ">"
  | OperatorType.gte => ">="
  | OperatorType.lt => "<"
  | OperatorType.lte => "<="
  | OperatorType.eq => "=="
  | OperatorType.neq => "!="

/-- The `OPERATORS` table: operator to comparison on floats.  The table is
total on the closed enum, so the source's `.get` never misses. -/
def applyOp : OperatorType → ℚ → ℚ → Bool
  | OperatorType.gt, a, b => decide (a > b)
  | OperatorType.gte, a, b => decide (a ≥ b)
  | OperatorType.lt, a, b => decide (a < b)
  | OperatorType.lte, a, b => decide (a ≤ b)
  | OperatorType.eq, a, b => decide (a = b)
  | OperatorType.neq, a, b => decide (a ≠ b)

/-- `RuleCondition`: field name, operator, and a literal-or-reference value. -/
structure RuleCondition where
  field : String
  operator : OperatorType
  value : Value
deriving DecidableEq, Repr

/-- `RuleFilters` (all fields optional; `min_volume` is an `int` in the
source, embedded in ℚ; `sectors` is declared but never checked). -/
structure RuleFilters where
  min_price : Option ℚ := none
  max_price : Option ℚ := none
  min_volume : Option ℚ := none
  sectors : Option (List String) := none
deriving DecidableEq, Repr

/-- `RuleTargets` (the source field `target_rr_ratio` is named `target_rr`
here; all other names follow the source). -/
structure RuleTargets where
  stop_loss_percent : Option ℚ := none
  stop_loss_atr_multiplier : Option ℚ := none
  target_percent : Option ℚ := none
  target_rr : Option ℚ := none
deriving DecidableEq, Repr

/-- `ConfidenceModifier`: a condition string and an adjustment. -/
structure ConfidenceModifier where
  condition : String
  adjustment : ℚ
deriving DecidableEq, Repr

/-- `RuleConfidence`: base score (default 0.7) and optional modifiers. -/
structure RuleConfidence where
  base_score : ℚ := 7/10
  modifiers : Option (List ConfidenceModifier) := none
deriving DecidableEq, Repr

/-- `RuleDefinition` (the unused config fields `description`,
`lookback_periods`, `time_window` are omitted: the engine never reads them). -/
structure RuleDefinition where
  name : String
  type : String := ""
  enabled : Bool := true
  priority : ℤ := 0
  conditions : List RuleCondition
  filters : Option RuleFilters := none
  targets : Option RuleTargets := none
  confidence : Option RuleConfidence := none
deriving DecidableEq, Repr

/-- `RuleEvaluationResult` with the source's dataclass defaults.
`entry_price` holds the raw snapshot value `market_data.get("price", 0)`. -/
structure RuleEvaluationResult where
  triggered : Bool
  rule_name : String
  confidence : ℚ := 0
  entry_price : Option Value := none
  stop_loss : Option ℚ := none
  target_price : Option ℚ := none
  matched_conditions : List String := []
deriving DecidableEq, Repr

/-- Reference-value resolution inside `evaluate_condition`: a string value
that names a present snapshot key is replaced by that key's current value. -/
def resolveValue (md : MarketData) : Value → Value
  | Value.str s => if hasKey md s then (mdGet md s).getD Value.null else Value.str s
  | v => v

/-- `RuleEngine.evaluate_condition`: fail-closed comparison of one condition
against a snapshot.  Total: every error path in the source returns `False`. -/
def evaluate_condition (c : RuleCondition) (md : MarketData) : Bool :=
  match mdGet md c.field with
  | none => false
  | some Value.null => false
  | some fv =>
    let cv := resolveValue md c.value
    match pyFloat fv, pyFloat cv with
    | some a, some b => applyOp c.operator a b
    | _, _ => false

/-- One configured bound of `check_filters`: `some true` means the bound is
truthy and fails (the source returns `False`); `none` models the `TypeError`
of comparing a non-numeric snapshot value. -/
def boundFails (bound : Option ℚ) (test : ℚ → Option Bool) : Option Bool :=
  match bound with
  | none => some false
  | some b => if b = 0 then some false else test b

/-- `v < b` on a snapshot value (`none` models `TypeError`). -/
def vLt (v : Value) (b : ℚ) : Option Bool :=
  (asNum v).map (fun q => decide (q < b))

/-- `v > b` on a snapshot value (`none` models `TypeError`). -/
def vGt (v : Value) (b : ℚ) : Option Bool :=
  (asNum v).map (fun q => decide (q > b))

/-- `RuleEngine.check_filters`: `price`/`volume` default to `0` when absent;
each bound is consulted only when truthy (Python `if filters.min_price and …`). -/
def check_filters (fs : Option RuleFilters) (md : MarketData) : Option Bool :=
  match fs with
  | none => some true
  | some f =>
    let price := (mdGet md "price").getD (Value.num 0)
    let volume := (mdGet md "volume").getD (Value.num 0)
    (boundFails f.min_price (fun b => vLt price b)).bind (fun f1 =>
      if f1 then some false else
        (boundFails f.max_price (fun b => vGt price b)).bind (fun f2 =>
          if f2 then some false else
            (boundFails f.min_volume (fun b => vLt volume b)).bind (fun f3 =>
              if f3 then some false else some true)))

/-- The stop-loss half of `calculate_targets`: percent branch first, else the
ATR branch guarded by the truthiness of `market_data.get("atr", 0)`. -/
def stopLossCalc (entry : Value) (t : RuleTargets) (md : MarketData) : Option (Option ℚ) :=
  if optTruthy t.stop_loss_percent then
    (asNum entry).map (fun e =>
      some (round2 (e * (1 + (t.stop_loss_percent.getD 0) / 100))))
  else if optTruthy t.stop_loss_atr_multiplier then
    let atr := (mdGet md "atr").getD (Value.num 0)
    if truthy atr then
      (asNum atr).bind (fun a => (asNum entry).map (fun e =>
        some (round2 (e - a * (t.stop_loss_atr_multiplier.getD 0)))))
    else some none
  else some none

/-- The target half of `calculate_targets`: percent branch first, else the
risk-reward branch guarded by the truthiness of the computed stop-loss. -/
def targetCalc (entry : Value) (t : RuleTargets) (sl : Option ℚ) : Option (Option ℚ) :=
  if optTruthy t.target_percent then
    (asNum entry).map (fun e =>
      some (round2 (e * (1 + (t.target_percent.getD 0) / 100))))
  else if optTruthy t.target_rr && optTruthy sl then
    (asNum entry).map (fun e =>
      some (round2 (e + (e - sl.getD 0) * (t.target_rr.getD 0))))
  else some none

/-- `RuleEngine.calculate_targets`: returns `(stop_loss, target_price)`.
The outer `none` models an uncaught `TypeError` on a non-numeric entry/ATR. -/
def calculate_targets (entry : Value) (tg : Option RuleTargets) (md : MarketData) :
    Option (Option ℚ × Option ℚ) :=
  match tg with
  | none => some (none, none)
  | some t =>
    (stopLossCalc entry t md).bind (fun sl =>
      (targetCalc entry t sl).map (fun tp => (sl, tp)))

/-- `str.split()` on whitespace, dropping empty tokens (accumulator form). -/
def splitWsAux : List Char → List Char → List String
  | [], acc => if acc.isEmpty then [] else [String.mk acc.reverse]
  | c :: cs, acc =>
    if c.isWhitespace then
      if acc.isEmpty then splitWsAux cs []
      else String.mk acc.reverse :: splitWsAux cs []
    else splitWsAux cs (c :: acc)

/-- `condition_str.split()` as used by `_evaluate_modifier_condition`. -/
def splitWs (s : String) : List String := splitWsAux s.toList []

/-- The operator table local to `_evaluate_modifier_condition`. -/
def parseOp : String → Option OperatorType
  | ">" => some OperatorType.gt
  | ">=" => some OperatorType.gte
  | "<" => some OperatorType.lt
  | "<=" => some OperatorType.lte
  | "==" => some OperatorType.eq
  | "!=" => some OperatorType.neq
  | _ => none

/-- `RuleEngine._evaluate_modifier_condition`: parse `"field op literal"` and
compare; every failure (wrong arity, missing field, bad literal, unknown
operator, non-numeric field value) yields `False`.  Total. -/
def evaluate_modifier_condition (condition_str : String) (md : MarketData) : Bool :=
  match splitWs condition_str with
  | [field_name, op_str, value_str] =>
    match mdGet md field_name with
    | none => false
    | some Value.null => false
    | some fv =>
      match strFloat value_str with
      | none => false
      | some cv =>
        match parseOp op_str with
        | none => false
        | some op =>
          match pyFloat fv with
          | none => false
          | some a => applyOp op a cv
  | _ => false

/-- `RuleEngine.calculate_confidence`: 0.7 with no config, else the base
score plus each passing modifier's adjustment, clamped to `[0, 1]`. -/
def calculate_confidence (cfg : Option RuleConfidence) (md : MarketData) : ℚ :=
  match cfg with
  | none => 7/10
  | some c =>
    let score := (c.modifiers.getD []).foldl
      (fun s m => if evaluate_modifier_condition m.condition md then s + m.adjustment else s)
      c.base_score
    max 0 (min 1 score)

/-- The human-readable description of a matched condition
(`f"{condition.field} {condition.operator.value} {condition.value}"`;
the numeric rendering of `Value` is abstracted, one string per condition). -/
def conditionDescr (c : RuleCondition) : String :=
  c.field ++ " " ++ opSymbol c.operator ++ " " ++
    (match c.value with
     | Value.num q => toString q
     | Value.str s => s
     | Value.null => "None")

/-- The condition loop of `evaluate_rule`: `some strings` iff every
condition passes (AND-semantics, first failure aborts). -/
def matchedStrings (cs : List RuleCondition) (md : MarketData) : Option (List String) :=
  match cs with
  | [] => some []
  | c :: rest =>
    if evaluate_condition c md then
      (matchedStrings rest md).map (fun l => conditionDescr c :: l)
    else none

/-- `RuleEngine.evaluate_rule`.  The outer `none` models an uncaught
exception (only possible inside `check_filters`/`calculate_targets` on a
non-numeric snapshot value). -/
def evaluate_rule (rule : RuleDefinition) (md : MarketData) : Option RuleEvaluationResult :=
  if !rule.enabled then some { triggered := false, rule_name := rule.name }
  else
    (check_filters rule.filters md).bind (fun pass =>
      if !pass then some { triggered := false, rule_name := rule.name }
      else
        match matchedStrings rule.conditions md with
        | none => some { triggered := false, rule_name := rule.name }
        | some matched =>
          let entry := (mdGet md "price").getD (Value.num 0)
          (calculate_targets entry rule.targets md).map (fun p =>
            { triggered := true
              rule_name := rule.name
              confidence := calculate_confidence rule.confidence md
              entry_price := some entry
              stop_loss := p.1
              target_price := p.2
              matched_conditions := matched }))

/-- Stable descending insertion: a rule goes after every already-placed rule
of greater or equal priority (models the stability of Python's
`sorted(key=priority, reverse=True)` on ties). -/
def insertByPriority (r : RuleDefinition) : List RuleDefinition → List RuleDefinition
  | [] => [r]
  | y :: ys =>
    if r.priority ≤ y.priority then y :: insertByPriority r ys
    else r :: y :: ys

/-- Stable sort by priority descending (left fold of stable insertions). -/
def sortByPriorityDesc (rs : List RuleDefinition) : List RuleDefinition :=
  rs.foldl (fun acc r => insertByPriority r acc) []

/-- `RuleEngine.get_active_rules`: the enabled rules, stably sorted by
priority descending. -/
def get_active_rules (rules : List RuleDefinition) : List RuleDefinition :=
  sortByPriorityDesc (rules.filter (fun r => r.enabled))

/-- The loop of `evaluate_all_rules`: evaluate each rule, keep the
triggered results in iteration order. -/
def evalLoop (md : MarketData) : List RuleDefinition → Option (List RuleEvaluationResult)
  | [] => some []
  | r :: rs =>
    (evaluate_rule r md).bind (fun res =>
      (evalLoop md rs).map (fun rest => if res.triggered then res :: rest else rest))

/-- `RuleEngine.evaluate_all_rules` over an engine's rule list. -/
def evaluate_all_rules (rules : List RuleDefinition) (md : MarketData) :
    Option (List RuleEvaluationResult) :=
  evalLoop md (get_active_rules rules)

/-!
The subscription/broadcast hub (`ConnectionManager` in
`src/backend/app/api/v1/websocket.py`).  Connections are identified by
their id strings; the WebSocket objects themselves carry no state the
claims need, so a broadcast is parametrised by a failure oracle `bad`
telling which connections' `send_json` raises during that broadcast, and
returns the list of connection ids the message was delivered to.
Python sets are modelled as duplicate-free id lists.
-/

/-- Python `str.upper()` on an ASCII symbol (list-based so that concrete
instances reduce in the kernel). -/
def strUpper (s : String) : String := String.mk (s.toList.map Char.toUpper)

/-- `ConnectionManager` state: active connection ids, channel subscriber
sets, and per-symbol subscriber sets. -/
structure HubState where
  active_connections : List String
  subscriptions : List (String × List String)
  symbol_subscriptions : List (String × List String)
deriving DecidableEq, Repr

/-- The constructor: no connections, the two fixed channels, no symbols. -/
def initHub : HubState :=
  { active_connections := []
    subscriptions := [("alerts", []), ("market_data", [])]
    symbol_subscriptions := [] }

/-- `ConnectionManager.connect` with the fresh id made explicit. -/
def connect (s : HubState) (cid : String) : HubState :=
  { s with active_connections := s.active_connections ++ [cid] }

/-- `set.add(x)` on an id list. -/
def setAdd (l : List String) (x : String) : List String :=
  if l.contains x then l else l ++ [x]

/-- Add `cid` to the set stored at key `k` of an index (no-op when the key
is absent, as in `if channel in self.subscriptions: …`). -/
def indexAdd (idx : List (String × List String)) (k cid : String) :
    List (String × List String) :=
  idx.map (fun p => if p.1 == k then (p.1, setAdd p.2 cid) else p)

/-- `index[k]` lookup. -/
def hubLookup (idx : List (String × List String)) (k : String) : Option (List String) :=
  (idx.find? (fun p => p.1 == k)).map (fun p => p.2)

/-- `ConnectionManager.disconnect`: drop the connection and discard its id
from every channel set and every symbol set. -/
def disconnect (s : HubState) (cid : String) : HubState :=
  { active_connections := s.active_connections.filter (fun c => c != cid)
    subscriptions := s.subscriptions.map (fun p => (p.1, p.2.filter (fun c => c != cid)))
    symbol_subscriptions :=
      s.symbol_subscriptions.map (fun p => (p.1, p.2.filter (fun c => c != cid))) }

/-- One iteration of the symbol loop of `ConnectionManager.subscribe`:
upper-case the symbol, create its index entry if new (recording it as new),
then add the connection to the symbol's set. -/
def addSymbol (cid : String) (acc : List (String × List String) × List String)
    (sym : String) : List (String × List String) × List String :=
  let up := strUpper sym
  if acc.1.any (fun p => p.1 == up) then
    (indexAdd acc.1 up cid, acc.2)
  else
    (indexAdd (acc.1 ++ [(up, [])]) up cid, acc.2 ++ [up])

/-- `ConnectionManager.subscribe`: returns the new state and the list of
symbols registered with the upstream feed (`new_symbols`, empty when no
upstream call is made). -/
def subscribe (s : HubState) (cid channel : String) (symbols : List String) :
    HubState × List String :=
  let subs := indexAdd s.subscriptions channel cid
  if channel == "market_data" && !symbols.isEmpty then
    let r := symbols.foldl (addSymbol cid) (s.symbol_subscriptions, [])
    ({ s with subscriptions := subs, symbol_subscriptions := r.1 }, r.2)
  else
    ({ s with subscriptions := subs }, [])

/-- The shared fan-out loop of both broadcast methods: send to every
subscriber that is still an active connection, collect the ones whose send
raised, then disconnect exactly those.  Returns the new state and the ids
the message was delivered to. -/
def fanOut (bad : String → Bool) (s : HubState) (conns : List String) :
    HubState × List String :=
  let targets := conns.filter (fun c => s.active_connections.contains c)
  let delivered := targets.filter (fun c => !bad c)
  let failed := targets.filter (fun c => bad c)
  (failed.foldl disconnect s, delivered)

/-- `ConnectionManager.broadcast_to_channel`. -/
def broadcast_to_channel (bad : String → Bool) (s : HubState) (channel : String) :
    HubState × List String :=
  match hubLookup s.subscriptions channel with
  | none => (s, [])
  | some conns => fanOut bad s conns

/-- `ConnectionManager.broadcast_to_symbol` (case-insensitive symbol key). -/
def broadcast_to_symbol (bad : String → Bool) (s : HubState) (symbol : String) :
    HubState × List String :=
  match hubLookup s.symbol_subscriptions (strUpper symbol) with
  | none => (s, [])
  | some conns => fanOut bad s conns

/-!  Spec-side predicates and concrete inputs used by the verification. -/

/-- A connection id appears nowhere in a hub state: not active, in no
channel set, in no symbol set. -/
def purgedFrom (s : HubState) (cid : String) : Prop :=
  cid ∉ s.active_connections
  ∧ (∀ ch conns, (ch, conns) ∈ s.subscriptions → cid ∉ conns)
  ∧ (∀ sym conns, (sym, conns) ∈ s.symbol_subscriptions → cid ∉ conns)

/-- Key membership in an index (`symbol in self.symbol_subscriptions`). -/
def keyIn (idx : List (String × List String)) (k : String) : Bool :=
  idx.any (fun p => p.1 == k)

/-- Spec-side reading of one filter bound: `true` iff the bound is
configured (present and non-zero, the source's truthiness test) and its
comparison rejects the snapshot. -/
def boundChk (b? : Option ℚ) (t : ℚ → Bool) : Bool :=
  match b? with
  | none => false
  | some b => if b = 0 then false else t b

/-- The triggered-results-of-a-rule-list description of `evaluate_all_rules`
(each rule evaluated independently, triggered results kept in order). -/
def triggeredResults (rs : List RuleDefinition) (md : MarketData) :
    List RuleEvaluationResult :=
  rs.filterMap (fun r =>
    (evaluate_rule r md).bind (fun res => if res.triggered then some res else none))

/-- A condition `price > 0`, satisfied by `mdUnit`. -/
def condPos : RuleCondition :=
  { field := "price", operator := OperatorType.gt, value := Value.num 0 }

/-- A condition `price > 5`, failed by `mdUnit`. -/
def condHigh : RuleCondition :=
  { field := "price", operator := OperatorType.gt, value := Value.num 5 }

/-- Equal-priority rule named "b", listed before `ruleNamedA`. -/
def ruleNamedB : RuleDefinition :=
  { name := "b", priority := 1, conditions := [condPos] }

/-- Equal-priority rule named "a", listed after `ruleNamedB`. -/
def ruleNamedA : RuleDefinition :=
  { name := "a", priority := 1, conditions := [condPos] }

/-- A rule whose single condition fails on `mdUnit`. -/
def ruleQuiet : RuleDefinition :=
  { name := "q", priority := 1, conditions := [condHigh] }

/-- A snapshot with `price = 1`. -/
def mdUnit : MarketData := [("price", Value.num 1)]

/-- A snapshot with a numeric price and volume. -/
def mdPriced : MarketData :=
  [("price", Value.num 150), ("volume", Value.num 1000000)]

/-- A two-connection hub subscribed to "alerts", for the broadcast claims. -/
def hubTwo : HubState :=
  { active_connections := ["c1", "c2"]
    subscriptions := [("alerts", ["c1", "c2"]), ("market_data", [])]
    symbol_subscriptions := [] }

/-- A failure oracle under which only connection "c1" fails. -/
def badC1 : String → Bool := fun c => c == "c1"

/-- Lexicographic order on strings by character lists ("name ascending";
list-based so that concrete instances reduce in the kernel). -/
def strLeB (a b : String) : Bool :=
  lexLe a.toList b.toList
where lexLe : List Char → List Char → Bool
  | [], _ => true
  | _ :: _, [] => false
  | x :: xs, y :: ys => if x < y then true else if x = y then lexLe xs ys else false

/-!  Helper lemmas. -/

lemma rhe_intCast (n : ℤ) : rhe (n : ℚ) = n := by
  simp [rhe]

lemma round2_eq (q : ℚ) (n : ℤ) (h : q * 100 = (n : ℚ)) :
    round2 q = (n : ℚ) / 100 := by
  simp [round2, h, rhe_intCast]

lemma foldl_adjust (md : MarketData) (l : List ConfidenceModifier) : ∀ b : ℚ,
    l.foldl (fun s m =>
        if evaluate_modifier_condition m.condition md then s + m.adjustment else s) b
      = b + ((l.filter (fun m => evaluate_modifier_condition m.condition md)).map
          (fun m => m.adjustment)).sum := by
  induction l with
  | nil => intro b; simp
  | cons m rest ih =>
    intro b
    by_cases h : evaluate_modifier_condition m.condition md <;>
      simp [List.filter_cons, h, ih, add_assoc]

/-- Theorem C2: `evaluate_condition` is fail-closed: a missing field, a
field bound to the null sentinel, or a coercion failure on either side of
the comparison yields `false` (the function is total, so it never raises). -/
theorem c2_evaluate_condition_fail_closed (c : RuleCondition) (md : MarketData) :
    ((mdGet md c.field = none ∨ mdGet md c.field = some Value.null) →
      evaluate_condition c md = false)
    ∧ (∀ fv, mdGet md c.field = some fv → pyFloat fv = none →
      evaluate_condition c md = false)
    ∧ (∀ fv, mdGet md c.field = some fv → pyFloat (resolveValue md c.value) = none →
      evaluate_condition c md = false) := by
  refine ⟨?_, ?_, ?_⟩
  · rintro (h | h) <;> simp [evaluate_condition, h]
  · intro fv hfv hfl
    cases fv with
    | num q => simp [pyFloat] at hfl
    | null => simp [evaluate_condition, hfv]
    | str s =>
      simp only [evaluate_condition, hfv]
      rw [hfl]
  · intro fv hfv hcv
    cases fv with
    | null => simp [evaluate_condition, hfv]
    | num q =>
      simp only [evaluate_condition, hfv]
      rw [hcv]
      cases pyFloat (Value.num q) <;> rfl
    | str s =>
      simp only [evaluate_condition, hfv]
      rw [hcv]
      cases pyFloat (Value.str s) <;> rfl

/-- Witness for C2 at a concrete input: the field is absent. -/
theorem c2_witness :
    evaluate_condition
      { field := "volume_ratio", operator := OperatorType.gt, value := Value.num 1 }
      [] = false :=
  (c2_evaluate_condition_fail_closed _ _).1 (Or.inl rfl)

/-- Theorem C6: `calculate_confidence` defaults to 0.7 with no config,
otherwise adds exactly the adjustments of the modifiers whose condition
string holds of the snapshot, clamped to `[0, 1]`; a modifier condition
that does not split into three tokens, or whose field is missing, counts
as false. -/
theorem c6_calculate_confidence_spec :
    (∀ md, calculate_confidence none md = 7/10)
    ∧ (∀ cfg md, calculate_confidence (some cfg) md =
        max 0 (min 1 (cfg.base_score +
          (((cfg.modifiers.getD []).filter
              (fun m => evaluate_modifier_condition m.condition md)).map
            (fun m => m.adjustment)).sum)))
    ∧ (∀ cfg md, 0 ≤ calculate_confidence cfg md ∧ calculate_confidence cfg md ≤ 1)
    ∧ (∀ s md, (splitWs s).length ≠ 3 → evaluate_modifier_condition s md = false)
    ∧ (∀ s md f o v, splitWs s = [f, o, v] → mdGet md f = none →
        evaluate_modifier_condition s md = false) := by
  refine ⟨fun md => rfl, ?_, ?_, ?_, ?_⟩
  · intro cfg md
    simp [calculate_confidence, foldl_adjust]
  · intro cfg md
    cases cfg with
    | none =>
      constructor <;> norm_num [calculate_confidence]
    | some c =>
      simp only [calculate_confidence]
      exact ⟨le_max_left 0 _, max_le (by norm_num) (min_le_left _ _)⟩
  · intro s md h
    unfold evaluate_modifier_condition
    rcases hs : splitWs s with _ | ⟨a, _ | ⟨b, _ | ⟨c, _ | ⟨d, t⟩⟩⟩⟩ <;>
      first
        | rfl
        | (exact absurd (by rw [hs]; rfl) h)
  · intro s md f o v hs hmd
    unfold evaluate_modifier_condition
    rw [hs]
    simp [hmd]

/-- Witness for C6 at a concrete input: a one-token condition string. -/
theorem c6_witness : evaluate_modifier_condition "volume_ratio" [] = false :=
  c6_calculate_confidence_spec.2.2.2.1 "volume_ratio" [] (by decide)

/-!  Disconnect/purge lemmas shared by the hub claims. -/

lemma not_mem_filter_ne_self (l : List String) (c : String) :
    c ∉ l.filter (fun x => x != c) := by
  simp [List.mem_filter]

lemma disconnect_purges_self (s : HubState) (cid : String) :
    purgedFrom (disconnect s cid) cid := by
  refine ⟨?_, ?_, ?_⟩
  · exact not_mem_filter_ne_self _ _
  · intro ch conns h
    simp only [disconnect, List.mem_map] at h
    obtain ⟨p, hp, heq⟩ := h
    cases heq
    exact not_mem_filter_ne_self _ _
  · intro sym conns h
    simp only [disconnect, List.mem_map] at h
    obtain ⟨p, hp, heq⟩ := h
    cases heq
    exact not_mem_filter_ne_self _ _

lemma disconnect_preserves_purged (s : HubState) (cid d : String)
    (h : purgedFrom s cid) : purgedFrom (disconnect s d) cid := by
  obtain ⟨h1, h2, h3⟩ := h
  refine ⟨?_, ?_, ?_⟩
  · intro hm
    exact h1 (List.mem_of_mem_filter hm)
  · intro ch conns hcc hm
    simp only [disconnect, List.mem_map] at hcc
    obtain ⟨p, hp, heq⟩ := hcc
    cases heq
    exact h2 p.1 p.2 hp (List.mem_of_mem_filter hm)
  · intro sym conns hcc hm
    simp only [disconnect, List.mem_map] at hcc
    obtain ⟨p, hp, heq⟩ := hcc
    cases heq
    exact h3 p.1 p.2 hp (List.mem_of_mem_filter hm)

lemma foldl_disconnect_preserves (ds : List String) :
    ∀ (s : HubState) (cid : String), purgedFrom s cid →
      purgedFrom (ds.foldl disconnect s) cid := by
  induction ds with
  | nil => intro s cid h; exact h
  | cons d rest ih =>
    intro s cid h
    exact ih (disconnect s d) cid (disconnect_preserves_purged s cid d h)

lemma foldl_disconnect_purges (ds : List String) :
    ∀ (s : HubState) (cid : String), cid ∈ ds →
      purgedFrom (ds.foldl disconnect s) cid := by
  induction ds with
  | nil => intro s cid h; cases h
  | cons d rest ih =>
    intro s cid h
    rcases List.mem_cons.mp h with h | h
    · subst h
      exact foldl_disconnect_preserves rest (disconnect s cid) cid
        (disconnect_purges_self s cid)
    · exact ih (disconnect s d) cid h

/-- Theorem C7: after `disconnect(id)`, the id is absent from the
active-connection map, from every channel subscriber set, and from every
per-symbol subscriber set. -/
theorem c7_disconnect_purges (s : HubState) (cid : String) :
    purgedFrom (disconnect s cid) cid :=
  disconnect_purges_self s cid

/-!  Stage lemmas for `check_filters` and `calculate_targets`. -/

lemma optTruthy_eq_true (o : Option ℚ) : optTruthy o = true ↔ ∃ q, o = some q ∧ q ≠ 0 := by
  cases o <;> simp [optTruthy]

lemma boundFails_eval_lt (b? : Option ℚ) (q : ℚ) :
    boundFails b? (fun b => vLt (Value.num q) b)
      = some (boundChk b? (fun b => decide (q < b))) := by
  rcases b? with _ | b
  · rfl
  · by_cases hb : b = 0 <;> simp [boundFails, boundChk, vLt, asNum, hb]

lemma boundFails_eval_gt (b? : Option ℚ) (q : ℚ) :
    boundFails b? (fun b => vGt (Value.num q) b)
      = some (boundChk b? (fun b => decide (b < q))) := by
  rcases b? with _ | b
  · rfl
  · by_cases hb : b = 0 <;> simp [boundFails, boundChk, vGt, asNum, hb]

lemma boundChk_eq_false (b? : Option ℚ) (t : ℚ → Bool) :
    boundChk b? t = false ↔ ∀ b, b? = some b → b ≠ 0 → t b = false := by
  rcases b? with _ | b
  · simp [boundChk]
  · by_cases hb : b = 0 <;> simp [boundChk, hb]

lemma check_filters_num (f : RuleFilters) (md : MarketData) (p v : ℚ)
    (hp : (mdGet md "price").getD (Value.num 0) = Value.num p)
    (hv : (mdGet md "volume").getD (Value.num 0) = Value.num v) :
    check_filters (some f) md
      = some (!(boundChk f.min_price (fun b => decide (p < b)))
          && (!(boundChk f.max_price (fun b => decide (b < p)))
          && !(boundChk f.min_volume (fun b => decide (v < b))))) := by
  have e1 := boundFails_eval_lt f.min_price p
  have e2 := boundFails_eval_gt f.max_price p
  have e3 := boundFails_eval_lt f.min_volume v
  simp only [check_filters, hp, hv, e1, e2, e3, Option.some_bind]
  cases boundChk f.min_price (fun b => decide (p < b)) <;>
    cases boundChk f.max_price (fun b => decide (b < p)) <;>
    cases boundChk f.min_volume (fun b => decide (v < b)) <;>
    simp

/-- Theorem C4: filters gate rules independently of conditions.
`check_filters` accepts with no filters, and accepts exactly when every
configured bound passes ("configured" follows the source's truthiness
test: a bound that is absent or exactly 0 is not consulted — claim C10);
and a failing filter makes `evaluate_rule` return an untriggered result
whatever the rule's conditions are. -/
theorem c4_check_filters_gate (f : RuleFilters) (md : MarketData) (p v : ℚ)
    (hp : (mdGet md "price").getD (Value.num 0) = Value.num p)
    (hv : (mdGet md "volume").getD (Value.num 0) = Value.num v) :
    (check_filters none md = some true)
    ∧ (check_filters (some f) md = some true ↔
        ((∀ b, f.min_price = some b → b ≠ 0 → b ≤ p)
         ∧ (∀ b, f.max_price = some b → b ≠ 0 → p ≤ b)
         ∧ (∀ b, f.min_volume = some b → b ≠ 0 → b ≤ v)))
    ∧ (∀ (rule : RuleDefinition) (cs : List RuleCondition), rule.enabled = true →
        check_filters rule.filters md = some false →
        evaluate_rule { rule with conditions := cs } md
          = some { triggered := false, rule_name := rule.name }) := by
  refine ⟨rfl, ?_, ?_⟩
  · rw [check_filters_num f md p v hp hv]
    simp only [Option.some.injEq, Bool.and_eq_true, Bool.not_eq_true']
    rw [boundChk_eq_false, boundChk_eq_false, boundChk_eq_false]
    simp [not_lt, and_assoc]
  · intro rule cs hen hf
    simp [evaluate_rule, hen, hf]

/-- Witness for C4 at a concrete input: a configured min-price bound that
the snapshot passes. -/
theorem c4_witness :
    check_filters (some { min_price := some 5 }) mdPriced = some true :=
  ((c4_check_filters_gate { min_price := some 5 } mdPriced 150 1000000 rfl rfl).2.1).mpr
    ⟨(by rintro b hb hb0; cases hb; norm_num),
     (by rintro b hb hb0; cases hb),
     (by rintro b hb hb0; cases hb)⟩

/-- Theorem C5: in `calculate_targets`, a risk-reward target is produced
only when a stop-loss was computed in the same call (and then equals
`entry + (entry − stopLoss) × ratio`, rounded); a ratio with no stop-loss
configuration yields a null target; and a set (non-zero) percent takes
precedence over the other member of its pair. -/
theorem c5_calculate_targets_precedence (e : ℚ) (t : RuleTargets) (md : MarketData) :
    (∀ sl tp, calculate_targets (Value.num e) (some t) md = some (sl, tp) →
       optTruthy t.target_percent = false → tp ≠ none →
       ∃ s r, sl = some s ∧ t.target_rr = some r ∧
         tp = some (round2 (e + (e - s) * r)))
    ∧ (t.stop_loss_percent = none → t.stop_loss_atr_multiplier = none →
       t.target_percent = none →
       calculate_targets (Value.num e) (some t) md = some (none, none))
    ∧ (∀ ps sl tp, t.stop_loss_percent = some ps → ps ≠ 0 →
       calculate_targets (Value.num e) (some t) md = some (sl, tp) →
       sl = some (round2 (e * (1 + ps / 100))))
    ∧ (∀ pt sl tp, t.target_percent = some pt → pt ≠ 0 →
       calculate_targets (Value.num e) (some t) md = some (sl, tp) →
       tp = some (round2 (e * (1 + pt / 100)))) := by
  refine ⟨?_, ?_, ?_, ?_⟩
  · intro sl tp h hpt htp
    simp only [calculate_targets] at h
    rcases hsl : stopLossCalc (Value.num e) t md with _ | sl'
    · rw [hsl] at h; cases h
    · rw [hsl, Option.some_bind] at h
      rcases htc : targetCalc (Value.num e) t sl' with _ | tp2
      · rw [htc] at h; cases h
      · rw [htc] at h
        simp only [Option.map] at h
        injection h with h
        injection h with heq1 heq2
        subst heq1
        subst heq2
        simp only [targetCalc, hpt] at htc
        rw [if_neg (by simp)] at htc
        cases hb : (optTruthy t.target_rr && optTruthy sl') with
        | false =>
          rw [hb] at htc
          simp at htc
          exact absurd htc.symm htp
        | true =>
          rw [hb] at htc
          simp only [if_true, asNum, Option.map] at htc
          injection htc with htc
          simp only [Bool.and_eq_true] at hb
          obtain ⟨hr, hsl2⟩ := hb
          obtain ⟨r, hrr, hr0⟩ := (optTruthy_eq_true _).mp hr
          obtain ⟨s, hss, hs0⟩ := (optTruthy_eq_true _).mp hsl2
          refine ⟨s, r, hss, hrr, ?_⟩
          rw [← htc, hss, hrr]
          simp
  · intro h1 h2 h3
    simp [calculate_targets, stopLossCalc, targetCalc, optTruthy, h1, h2, h3]
  · intro ps sl tp hps hps0 h
    simp only [calculate_targets] at h
    have hsl : stopLossCalc (Value.num e) t md
        = some (some (round2 (e * (1 + ps / 100)))) := by
      simp [stopLossCalc, optTruthy, hps, hps0, asNum]
    rw [hsl, Option.some_bind] at h
    rcases htc : targetCalc (Value.num e) t (some (round2 (e * (1 + ps / 100)))) with _ | tp2
    · rw [htc] at h; cases h
    · rw [htc] at h
      simp only [Option.map] at h
      injection h with h
      injection h with heq1 heq2
      exact heq1.symm
  · intro pt sl tp hpt hpt0 h
    simp only [calculate_targets] at h
    rcases hsl : stopLossCalc (Value.num e) t md with _ | sl'
    · rw [hsl] at h; cases h
    · rw [hsl, Option.some_bind] at h
      rcases htc : targetCalc (Value.num e) t sl' with _ | tp2
      · rw [htc] at h; cases h
      · rw [htc] at h
        simp only [Option.map] at h
        injection h with h
        injection h with heq1 heq2
        subst heq1
        subst heq2
        simp only [targetCalc] at htc
        rw [if_pos (by simp [optTruthy, hpt, hpt0])] at htc
        simp only [asNum, Option.map] at htc
        injection htc with htc
        rw [← htc, hpt]
        simp

/-- Witness for C5 at a concrete input: a −3% stop-loss with no target
config; the percent stop-loss is computed. -/
theorem c5_witness :
    calculate_targets (Value.num 150) (some { stop_loss_percent := some (-3) }) []
        = some (some (round2 (150 * (1 + (-3) / 100))), none)
    ∧ (some (round2 ((150 : ℚ) * (1 + (-3) / 100))) : Option ℚ)
        = some (round2 (150 * (1 + (-3) / 100))) := by
  have hcalc : calculate_targets (Value.num 150)
      (some { stop_loss_percent := some (-3) }) []
      = some (some (round2 (150 * (1 + (-3) / 100))), none) := by
    simp [calculate_targets, stopLossCalc, targetCalc, optTruthy, asNum]
  exact ⟨hcalc,
    (c5_calculate_targets_precedence 150 { stop_loss_percent := some (-3) } []).2.2.1
      (-3) _ none rfl (by norm_num) hcalc⟩

/-- Theorem C10: optional numeric settings are truthiness-tested, so an
exact 0 behaves as unconfigured: a zero filter bound is never consulted
(and a missing price or volume is compared as 0); a zero stop-loss or
target percent falls through to the alternative branch; a zero (or absent)
`atr` yields no ATR stop-loss; and a computed stop-loss of exactly 0
disables the risk-reward target. -/
theorem c10_zero_truthiness :
    (∀ (f : RuleFilters) (md : MarketData), f.min_price = some 0 →
       check_filters (some f) md = check_filters (some { f with min_price := none }) md)
    ∧ (∀ (f : RuleFilters) (md : MarketData), f.max_price = some 0 →
       check_filters (some f) md = check_filters (some { f with max_price := none }) md)
    ∧ (∀ (f : RuleFilters) (md : MarketData), f.min_volume = some 0 →
       check_filters (some f) md = check_filters (some { f with min_volume := none }) md)
    ∧ (∀ (md : MarketData) (b : ℚ), mdGet md "price" = none → 0 < b →
       check_filters (some { min_price := some b }) md = some false)
    ∧ (∀ (md : MarketData) (b : ℚ), mdGet md "volume" = none → 0 < b →
       check_filters (some { min_volume := some b }) md = some false)
    ∧ (∀ (entry : Value) (t : RuleTargets) (md : MarketData),
       t.stop_loss_percent = some 0 →
       calculate_targets entry (some t) md
         = calculate_targets entry (some { t with stop_loss_percent := none }) md)
    ∧ (∀ (entry : Value) (t : RuleTargets) (md : MarketData),
       t.target_percent = some 0 →
       calculate_targets entry (some t) md
         = calculate_targets entry (some { t with target_percent := none }) md)
    ∧ (∀ (entry : Value) (t : RuleTargets) (md : MarketData),
       (mdGet md "atr").getD (Value.num 0) = Value.num 0 →
       calculate_targets entry (some t) md
         = calculate_targets entry (some { t with stop_loss_atr_multiplier := none }) md)
    ∧ (∀ (e : ℚ) (t : RuleTargets) (md : MarketData) (tp : Option ℚ),
       optTruthy t.target_percent = false →
       calculate_targets (Value.num e) (some t) md = some (some 0, tp) → tp = none) := by
  refine ⟨?_, ?_, ?_, ?_, ?_, ?_, ?_, ?_, ?_⟩
  · intro f md h
    simp [check_filters, boundFails, h]
  · intro f md h
    simp [check_filters, boundFails, h]
  · intro f md h
    simp [check_filters, boundFails, h]
  · intro md b hmd hb
    simp [check_filters, hmd, boundFails, hb.ne', vLt, asNum, hb]
  · intro md b hmd hb
    have e1 := boundFails_eval_lt ((mdGet md "price").getD (Value.num 0) |> asNum |>.getD 0) 0
    simp [check_filters, hmd, boundFails, hb.ne', vLt, vGt, asNum, hb]
  · intro entry t md h
    simp [calculate_targets, stopLossCalc, targetCalc, optTruthy, h]
  · intro entry t md h
    simp [calculate_targets, stopLossCalc, targetCalc, optTruthy, h]
  · intro entry t md h
    have ht : ∀ a, targetCalc entry { t with stop_loss_atr_multiplier := none } a
        = targetCalc entry t a := fun a => rfl
    by_cases h1 : optTruthy t.stop_loss_percent <;>
      by_cases h2 : optTruthy t.stop_loss_atr_multiplier <;>
        simp [calculate_targets, stopLossCalc, optTruthy, truthy, h, h1, h2, ht]
  · intro e t md tp hpt h
    simp only [calculate_targets] at h
    rcases hsl : stopLossCalc (Value.num e) t md with _ | sl'
    · rw [hsl] at h; cases h
    · rw [hsl, Option.some_bind] at h
      rcases htc : targetCalc (Value.num e) t sl' with _ | tp2
      · rw [htc] at h; cases h
      · rw [htc] at h
        simp only [Option.map] at h
        injection h with h
        injection h with heq1 heq2
        subst heq1
        subst heq2
        simp only [targetCalc, hpt] at htc
        rw [if_neg (by simp)] at htc
        rw [if_neg (by simp [optTruthy])] at htc
        injection htc with htc
        exact htc.symm

/-- Witness for C10 at a concrete input: a zero stop-loss percent next to a
configured ATR multiplier behaves as if the percent were unconfigured. -/
theorem c10_witness :
    calculate_targets (Value.num 100)
        (some { stop_loss_percent := some 0, stop_loss_atr_multiplier := some 2 }) []
      = calculate_targets (Value.num 100)
        (some { stop_loss_atr_multiplier := some 2 }) [] :=
  c10_zero_truthiness.2.2.2.2.2.1 (Value.num 100)
    { stop_loss_percent := some 0, stop_loss_atr_multiplier := some 2 } [] rfl

/-!  Fan-out lemmas for the broadcast claims. -/

lemma fanOut_spec (bad : String → Bool) (s : HubState) (conns : List String) :
    (∀ c, c ∈ conns → c ∈ s.active_connections → bad c = false →
      c ∈ (fanOut bad s conns).2)
    ∧ (∀ c, c ∈ conns → c ∈ s.active_connections → bad c = true →
      purgedFrom (fanOut bad s conns).1 c)
    ∧ (∀ c, c ∈ (fanOut bad s conns).2 →
      bad c = false ∧ c ∈ conns ∧ c ∈ s.active_connections) := by
  refine ⟨?_, ?_, ?_⟩
  · intro c h1 h2 h3
    simp [fanOut, List.mem_filter, List.elem_iff, h1, h2, h3]
  · intro c h1 h2 h3
    apply foldl_disconnect_purges
    simp [List.mem_filter, List.elem_iff, h1, h2, h3]
  · intro c hc
    simp [fanOut, List.mem_filter, List.elem_iff] at hc
    exact ⟨hc.2.1, hc.1, hc.2.2⟩

/-- Theorem C9: in both broadcast paths, a connection whose send fails is
disconnected and purged from every subscription set, while every other
registered, active, non-failing subscriber still receives the message;
delivery happens only to active subscribers, and the fan-out is a total
function (no exception escapes it). -/
theorem c9_broadcast_fault_isolation (bad : String → Bool) (s : HubState)
    (key : String) (conns : List String) :
    (hubLookup s.subscriptions key = some conns →
      (∀ c, c ∈ conns → c ∈ s.active_connections → bad c = false →
        c ∈ (broadcast_to_channel bad s key).2)
      ∧ (∀ c, c ∈ conns → c ∈ s.active_connections → bad c = true →
        purgedFrom (broadcast_to_channel bad s key).1 c)
      ∧ (∀ c, c ∈ (broadcast_to_channel bad s key).2 →
        bad c = false ∧ c ∈ conns ∧ c ∈ s.active_connections))
    ∧ (hubLookup s.symbol_subscriptions (strUpper key) = some conns →
      (∀ c, c ∈ conns → c ∈ s.active_connections → bad c = false →
        c ∈ (broadcast_to_symbol bad s key).2)
      ∧ (∀ c, c ∈ conns → c ∈ s.active_connections → bad c = true →
        purgedFrom (broadcast_to_symbol bad s key).1 c)
      ∧ (∀ c, c ∈ (broadcast_to_symbol bad s key).2 →
        bad c = false ∧ c ∈ conns ∧ c ∈ s.active_connections)) := by
  constructor
  · intro h
    simp only [broadcast_to_channel, h]
    exact fanOut_spec bad s conns
  · intro h
    simp only [broadcast_to_symbol, h]
    exact fanOut_spec bad s conns

/-- Witness for C9 at a concrete input: "c1" fails, "c2" still receives. -/
theorem c9_witness : "c2" ∈ (broadcast_to_channel badC1 hubTwo "alerts").2
    ∧ purgedFrom (broadcast_to_channel badC1 hubTwo "alerts").1 "c1" :=
  ⟨(((c9_broadcast_fault_isolation badC1 hubTwo "alerts" ["c1", "c2"]).1 rfl).1)
      "c2" (by decide) (by decide) (by decide),
   (((c9_broadcast_fault_isolation badC1 hubTwo "alerts" ["c1", "c2"]).1 rfl).2.1)
      "c1" (by decide) (by decide) (by decide)⟩

/-!  Index lemmas for the subscribe claim. -/

lemma mem_setAdd_self (l : List String) (x : String) : x ∈ setAdd l x := by
  unfold setAdd
  by_cases h : l.contains x
  · rw [if_pos h]
    exact List.mem_of_elem_eq_true h
  · rw [if_neg h]
    exact List.mem_append_right _ (List.mem_singleton.mpr rfl)

lemma mem_setAdd_of_mem (l : List String) (x y : String) (h : y ∈ l) :
    y ∈ setAdd l x := by
  unfold setAdd
  by_cases hc : l.contains x
  · rw [if_pos hc]
    exact h
  · rw [if_neg hc]
    exact List.mem_append_left _ h

lemma keyIn_indexAdd (idx : List (String × List String)) (k cid u : String) :
    keyIn (indexAdd idx k cid) u = keyIn idx u := by
  simp only [keyIn, indexAdd, List.any_map]
  congr 1
  funext p
  by_cases h : p.1 == k <;> simp [Function.comp, h]

lemma keyIn_append_single (idx : List (String × List String)) (k u : String) :
    keyIn (idx ++ [(k, [])]) u = (keyIn idx u || (k == u)) := by
  simp [keyIn, List.any_append]

lemma hubLookup_indexAdd (idx : List (String × List String)) (k cid u : String) :
    hubLookup (indexAdd idx k cid) u
      = (hubLookup idx u).map (fun conns => if k == u then setAdd conns cid else conns) := by
  induction idx with
  | nil => rfl
  | cons p rest ih =>
    by_cases hk : p.1 == k
    · have e : indexAdd (p :: rest) k cid = (p.1, setAdd p.2 cid) :: indexAdd rest k cid := by
        simp only [indexAdd, List.map_cons]
        rw [if_pos hk]
      rw [e]
      by_cases hp : p.1 == u
      · have hku : (k == u) = true := by
          rw [← (show p.1 = k by simpa using hk)]
          exact hp
        have f1 : List.find? (fun q => q.1 == u) ((p.1, setAdd p.2 cid) :: indexAdd rest k cid)
            = some (p.1, setAdd p.2 cid) := by
          apply List.find?_cons_of_pos
          simpa using hp
        have f2 : List.find? (fun q => q.1 == u) (p :: rest) = some p := by
          apply List.find?_cons_of_pos
          simpa using hp
        simp only [hubLookup]
        rw [f1, f2]
        simp [hku]
      · have f1 : List.find? (fun q => q.1 == u) ((p.1, setAdd p.2 cid) :: indexAdd rest k cid)
            = List.find? (fun q => q.1 == u) (indexAdd rest k cid) := by
          apply List.find?_cons_of_neg
          simpa using hp
        have f2 : List.find? (fun q => q.1 == u) (p :: rest)
            = List.find? (fun q => q.1 == u) rest := by
          apply List.find?_cons_of_neg
          simpa using hp
        simp only [hubLookup] at ih ⊢
        rw [f1, f2]
        exact ih
    · have e : indexAdd (p :: rest) k cid = p :: indexAdd rest k cid := by
        simp only [indexAdd, List.map_cons]
        rw [if_neg hk]
      rw [e]
      by_cases hp : p.1 == u
      · have hku : (k == u) = false := by
          have h2 : p.1 = u := by simpa using hp
          have h3 : ¬ p.1 = k := by simpa using hk
          simp only [beq_eq_false_iff_ne, ne_eq]
          intro he
          exact h3 (by rw [h2, he])
        have f1 : List.find? (fun q => q.1 == u) (p :: indexAdd rest k cid) = some p := by
          apply List.find?_cons_of_pos
          simpa using hp
        have f2 : List.find? (fun q => q.1 == u) (p :: rest) = some p := by
          apply List.find?_cons_of_pos
          simpa using hp
        simp only [hubLookup]
        rw [f1, f2]
        simp [hku]
      · have f1 : List.find? (fun q => q.1 == u) (p :: indexAdd rest k cid)
            = List.find? (fun q => q.1 == u) (indexAdd rest k cid) := by
          apply List.find?_cons_of_neg
          simpa using hp
        have f2 : List.find? (fun q => q.1 == u) (p :: rest)
            = List.find? (fun q => q.1 == u) rest := by
          apply List.find?_cons_of_neg
          simpa using hp
        simp only [hubLookup] at ih ⊢
        rw [f1, f2]
        exact ih

lemma hubLookup_append_of_some (idx : List (String × List String))
    (e : String × List String) (k : String) (conns : List String)
    (h : hubLookup idx k = some conns) : hubLookup (idx ++ [e]) k = some conns := by
  simp only [hubLookup] at h ⊢
  rcases hf : List.find? (fun p => p.1 == k) idx with _ | p
  · rw [hf] at h; cases h
  · rw [hf] at h
    rw [List.find?_append, hf]
    exact h

lemma hubLookup_keyIn_false (idx : List (String × List String)) (u : String)
    (h : keyIn idx u = false) : hubLookup idx u = none := by
  simp only [keyIn, List.any_eq_false] at h
  simp only [hubLookup]
  rw [List.find?_eq_none.mpr h]
  rfl

lemma hubLookup_of_keyIn (idx : List (String × List String)) (u : String)
    (h : keyIn idx u = true) : ∃ conns, hubLookup idx u = some conns := by
  simp only [keyIn, List.any_eq_true] at h
  obtain ⟨p, hp, hpu⟩ := h
  rcases hf : List.find? (fun q => q.1 == u) idx with _ | q
  · rw [List.find?_eq_none] at hf
    exact absurd hpu (by simpa using hf p hp)
  · exact ⟨q.2, by simp [hubLookup, hf]⟩

lemma subLoop_spec (cid : String) (symbols : List String) :
    ∀ (idx : List (String × List String)) (acc : List String),
      (∀ u, u ∈ acc → keyIn idx u = true) →
      ((∀ u, u ∈ (symbols.foldl (addSymbol cid) (idx, acc)).2 ↔
          (u ∈ acc ∨ ((∃ sym, sym ∈ symbols ∧ strUpper sym = u) ∧ keyIn idx u = false)))
       ∧ (∀ sym, sym ∈ symbols →
          ∃ conns, hubLookup (symbols.foldl (addSymbol cid) (idx, acc)).1 (strUpper sym)
            = some conns ∧ cid ∈ conns)
       ∧ (∀ k conns, hubLookup idx k = some conns → cid ∈ conns →
          ∃ conns2, hubLookup (symbols.foldl (addSymbol cid) (idx, acc)).1 k = some conns2
            ∧ cid ∈ conns2)) := by
  induction symbols with
  | nil =>
    intro idx acc hpre
    refine ⟨?_, ?_, ?_⟩
    · intro u
      simp
    · intro sym h
      cases h
    · intro k conns h hc
      exact ⟨conns, h, hc⟩
  | cons sym rest ih =>
    intro idx acc hpre
    by_cases hS : keyIn idx (strUpper sym) = true
    · have hS' : idx.any (fun p => p.1 == strUpper sym) = true := hS
      have estep : addSymbol cid (idx, acc) sym = (indexAdd idx (strUpper sym) cid, acc) := by
        simp only [addSymbol]
        rw [if_pos hS']
      simp only [List.foldl_cons, estep]
      have hpre' : ∀ u, u ∈ acc → keyIn (indexAdd idx (strUpper sym) cid) u = true := by
        intro u hu
        rw [keyIn_indexAdd]
        exact hpre u hu
      obtain ⟨ih1, ih3, ih4⟩ := ih (indexAdd idx (strUpper sym) cid) acc hpre'
      refine ⟨?_, ?_, ?_⟩
      · intro u
        constructor
        · intro h
          rcases (ih1 u).mp h with h | ⟨⟨sym', hs', hup⟩, hkey⟩
          · exact Or.inl h
          · refine Or.inr ⟨⟨sym', List.mem_cons_of_mem _ hs', hup⟩, ?_⟩
            rwa [keyIn_indexAdd] at hkey
        · intro h
          apply (ih1 u).mpr
          rcases h with h | ⟨⟨sym', hs', hup⟩, hkey⟩
          · exact Or.inl h
          · rcases List.mem_cons.mp hs' with rfl | hs''
            · rw [← hup] at hkey
              exact absurd hS (by simp [hkey])
            · refine Or.inr ⟨⟨sym', hs'', hup⟩, ?_⟩
              rw [keyIn_indexAdd]
              exact hkey
      · intro sym' hsym'
        rcases List.mem_cons.mp hsym' with rfl | hs''
        · obtain ⟨conns, hlook⟩ := hubLookup_of_keyIn idx (strUpper sym') hS
          have hlook1 : hubLookup (indexAdd idx (strUpper sym') cid) (strUpper sym')
              = some (setAdd conns cid) := by
            rw [hubLookup_indexAdd, hlook]
            simp
          exact ih4 (strUpper sym') _ hlook1 (mem_setAdd_self _ _)
        · exact ih3 sym' hs''
      · intro k conns hlk hc
        have hlk1 : hubLookup (indexAdd idx (strUpper sym) cid) k
            = some (if strUpper sym == k then setAdd conns cid else conns) := by
          rw [hubLookup_indexAdd, hlk]
          rfl
        have hcm : cid ∈ (if strUpper sym == k then setAdd conns cid else conns) := by
          by_cases hsk : strUpper sym == k
          · rw [if_pos hsk]
            exact mem_setAdd_of_mem _ _ _ hc
          · rw [if_neg hsk]
            exact hc
        exact ih4 k _ hlk1 hcm
    · have hS0 : keyIn idx (strUpper sym) = false := by
        cases hx : keyIn idx (strUpper sym)
        · rfl
        · exact absurd hx hS
      have hS' : idx.any (fun p => p.1 == strUpper sym) = false := hS0
      have estep : addSymbol cid (idx, acc) sym
          = (indexAdd (idx ++ [(strUpper sym, [])]) (strUpper sym) cid,
             acc ++ [strUpper sym]) := by
        simp only [addSymbol]
        rw [if_neg (by rw [hS']; exact Bool.false_ne_true)]
      simp only [List.foldl_cons, estep]
      have e2 : ∀ u, keyIn (indexAdd (idx ++ [(strUpper sym, [])]) (strUpper sym) cid) u
          = (keyIn idx u || (strUpper sym == u)) := by
        intro u
        rw [keyIn_indexAdd, keyIn_append_single]
      have hpre' : ∀ u, u ∈ acc ++ [strUpper sym] →
          keyIn (indexAdd (idx ++ [(strUpper sym, [])]) (strUpper sym) cid) u = true := by
        intro u hu
        rw [e2]
        rcases List.mem_append.mp hu with hu | hu
        · simp [hpre u hu]
        · have : u = strUpper sym := by simpa using hu
          simp [this]
      obtain ⟨ih1, ih3, ih4⟩ :=
        ih (indexAdd (idx ++ [(strUpper sym, [])]) (strUpper sym) cid)
          (acc ++ [strUpper sym]) hpre'
      refine ⟨?_, ?_, ?_⟩
      · intro u
        constructor
        · intro h
          rcases (ih1 u).mp h with h | ⟨⟨sym', hs', hup⟩, hkey⟩
          · rcases List.mem_append.mp h with h | h
            · exact Or.inl h
            · have hu : u = strUpper sym := by simpa using h
              refine Or.inr ⟨⟨sym, List.mem_cons_self _ _, hu.symm⟩, ?_⟩
              rw [hu]
              exact hS0
          · rw [e2] at hkey
            simp only [Bool.or_eq_false_iff] at hkey
            exact Or.inr ⟨⟨sym', List.mem_cons_of_mem _ hs', hup⟩, hkey.1⟩
        · intro h
          apply (ih1 u).mpr
          rcases h with h | ⟨⟨sym', hs', hup⟩, hkey⟩
          · exact Or.inl (List.mem_append_left _ h)
          · rcases List.mem_cons.mp hs' with rfl | hs''
            · refine Or.inl (List.mem_append_right _ ?_)
              simp [← hup]
            · by_cases hSu : strUpper sym == u
              · refine Or.inl (List.mem_append_right _ ?_)
                have : strUpper sym = u := by simpa using hSu
                simp [this]
              · refine Or.inr ⟨⟨sym', hs'', hup⟩, ?_⟩
                rw [e2]
                have hSu0 : (strUpper sym == u) = false := by
                  cases hx : (strUpper sym == u)
                  · rfl
                  · exact absurd hx hSu
                simp [hkey, hSu0]
      · intro sym' hsym'
        rcases List.mem_cons.mp hsym' with rfl | hs''
        · have hk2 : keyIn (idx ++ [(strUpper sym', [])]) (strUpper sym') = true := by
            rw [keyIn_append_single]
            simp
          obtain ⟨conns, hlook⟩ := hubLookup_of_keyIn _ (strUpper sym') hk2
          have hlook1 : hubLookup
              (indexAdd (idx ++ [(strUpper sym', [])]) (strUpper sym') cid) (strUpper sym')
              = some (setAdd conns cid) := by
            rw [hubLookup_indexAdd, hlook]
            simp
          exact ih4 (strUpper sym') _ hlook1 (mem_setAdd_self _ _)
        · exact ih3 sym' hs''
      · intro k conns hlk hc
        have hlk0 : hubLookup (idx ++ [(strUpper sym, [])]) k = some conns :=
          hubLookup_append_of_some _ _ _ _ hlk
        have hlk1 : hubLookup (indexAdd (idx ++ [(strUpper sym, [])]) (strUpper sym) cid) k
            = some (if strUpper sym == k then setAdd conns cid else conns) := by
          rw [hubLookup_indexAdd, hlk0]
          rfl
        have hcm : cid ∈ (if strUpper sym == k then setAdd conns cid else conns) := by
          by_cases hsk : strUpper sym == k
          · rw [if_pos hsk]
            exact mem_setAdd_of_mem _ _ _ hc
          · rw [if_neg hsk]
            exact hc
        exact ih4 k _ hlk1 hcm

/-- Counterexample for C8: connection "c2" has never subscribed to "AAPL",
yet after "c1" already subscribed to it, a subscribe by "c2" registers
nothing upstream — novelty is judged against the hub's symbol index, not
against the symbols this connection has not yet subscribed to. -/
theorem c8_counterexample :
    (subscribe (subscribe initHub "c1" "market_data" ["AAPL"]).1
        "c2" "market_data" ["AAPL"]).2 = []
    ∧ (∀ conns,
        hubLookup (subscribe initHub "c1" "market_data" ["AAPL"]).1.symbol_subscriptions
          "AAPL" = some conns → "c2" ∉ conns) := by
  decide

/-- Theorem C8 (amended): for a non-empty `market_data` subscription, the
hub registers upstream exactly the upper-cased requested symbols that have
no entry yet in the hub's per-symbol index, and unions every requested
symbol, upper-cased, into that index for the connection. -/
theorem c8_subscribe_amended (s : HubState) (cid : String) (symbols : List String)
    (hs : symbols ≠ []) :
    (∀ u, u ∈ (subscribe s cid "market_data" symbols).2 ↔
      ((∃ sym, sym ∈ symbols ∧ strUpper sym = u)
        ∧ keyIn s.symbol_subscriptions u = false))
    ∧ (∀ sym, sym ∈ symbols →
      ∃ conns, hubLookup (subscribe s cid "market_data" symbols).1.symbol_subscriptions
          (strUpper sym) = some conns ∧ cid ∈ conns) := by
  have hcond : (("market_data" == "market_data") && !symbols.isEmpty) = true := by
    cases symbols with
    | nil => exact absurd rfl hs
    | cons a l => rfl
  obtain ⟨h1, h3, h4⟩ := subLoop_spec cid symbols s.symbol_subscriptions []
    (by intro u hu; cases hu)
  constructor
  · intro u
    simp only [subscribe, hcond, if_true]
    simpa using h1 u
  · intro sym hsym
    obtain ⟨conns, hl, hc⟩ := h3 sym hsym
    simp only [subscribe, hcond, if_true]
    exact ⟨conns, hl, hc⟩

/-- Witness for C8 (amended) at a concrete input: subscribing "aapl" on a
fresh hub stores the connection under "AAPL". -/
theorem c8_amended_witness :
    ∃ conns,
      hubLookup (subscribe initHub "c1" "market_data" ["aapl"]).1.symbol_subscriptions
        (strUpper "aapl") = some conns ∧ "c1" ∈ conns :=
  (c8_subscribe_amended initHub "c1" ["aapl"] (by simp)).2 "aapl" (by simp)

/-!  Condition-loop lemmas for the rule-evaluation claims. -/

lemma matchedStrings_none (cs : List RuleCondition) (md : MarketData)
    (h : ∃ c, c ∈ cs ∧ evaluate_condition c md = false) :
    matchedStrings cs md = none := by
  induction cs with
  | nil =>
    obtain ⟨c, hc, _⟩ := h
    cases hc
  | cons c rest ih =>
    obtain ⟨c0, hc0, hf⟩ := h
    rcases List.mem_cons.mp hc0 with rfl | hmem
    · simp [matchedStrings, hf]
    · by_cases he : evaluate_condition c md
      · simp [matchedStrings, he, ih ⟨c0, hmem, hf⟩]
      · simp [matchedStrings, he]

lemma matchedStrings_all (cs : List RuleCondition) (md : MarketData)
    (h : ∀ c, c ∈ cs → evaluate_condition c md = true) :
    matchedStrings cs md = some (cs.map conditionDescr) := by
  induction cs with
  | nil => rfl
  | cons c rest ih =>
    simp [matchedStrings, h c (List.mem_cons_self _ _),
      ih (fun c' hc' => h c' (List.mem_cons_of_mem _ hc'))]

/-- Theorem C3: AND-semantics of `evaluate_rule` (enabled rule, filters
passing): one false condition yields an untriggered result with empty
matched conditions regardless of the others; all conditions true yields a
triggered result whose entry price is the snapshot's price and whose
matched conditions hold one string per condition. -/
theorem c3_evaluate_rule_and_semantics (rule : RuleDefinition) (md : MarketData)
    (hen : rule.enabled = true)
    (hfil : check_filters rule.filters md = some true) :
    ((∃ c, c ∈ rule.conditions ∧ evaluate_condition c md = false) →
       evaluate_rule rule md = some { triggered := false, rule_name := rule.name })
    ∧ ((∀ c, c ∈ rule.conditions → evaluate_condition c md = true) →
       ∀ pv, mdGet md "price" = some pv →
       ∀ sl tp, calculate_targets pv rule.targets md = some (sl, tp) →
       evaluate_rule rule md = some
         { triggered := true
           rule_name := rule.name
           confidence := calculate_confidence rule.confidence md
           entry_price := some pv
           stop_loss := sl
           target_price := tp
           matched_conditions := rule.conditions.map conditionDescr }) := by
  constructor
  · intro h
    simp [evaluate_rule, hen, hfil, matchedStrings_none rule.conditions md h]
  · intro hall pv hpv sl tp htg
    simp [evaluate_rule, hen, hfil, matchedStrings_all rule.conditions md hall, hpv, htg]

/-- Witness for C3 at a concrete input: a one-condition rule triggering on
a snapshot with price 1. -/
theorem c3_witness :
    evaluate_rule ruleNamedB mdUnit = some
      { triggered := true
        rule_name := "b"
        confidence := calculate_confidence none mdUnit
        entry_price := some (Value.num 1)
        stop_loss := none
        target_price := none
        matched_conditions := [conditionDescr condPos] } :=
  (c3_evaluate_rule_and_semantics ruleNamedB mdUnit rfl rfl).2 (by decide)
    (Value.num 1) rfl none none rfl

/-!  Stable-sort lemmas for the evaluation-order claim. -/

lemma insertByPriority_perm (r : RuleDefinition) (l : List RuleDefinition) :
    (insertByPriority r l).Perm (r :: l) := by
  induction l with
  | nil => exact List.Perm.refl _
  | cons y ys ih =>
    by_cases h : r.priority ≤ y.priority
    · simp only [insertByPriority, if_pos h]
      exact (ih.cons y).trans (List.Perm.swap r y ys)
    · simp only [insertByPriority, if_neg h]
      exact List.Perm.refl _

lemma insertByPriority_sorted (r : RuleDefinition) (l : List RuleDefinition)
    (hl : List.Pairwise (fun a b => b.priority ≤ a.priority) l) :
    List.Pairwise (fun a b => b.priority ≤ a.priority) (insertByPriority r l) := by
  induction l with
  | nil => simp [insertByPriority]
  | cons y ys ih =>
    obtain ⟨hy, hys⟩ := List.pairwise_cons.mp hl
    by_cases h : r.priority ≤ y.priority
    · simp only [insertByPriority, if_pos h]
      refine List.pairwise_cons.mpr ⟨?_, ih hys⟩
      intro b hb
      rcases List.mem_cons.mp ((insertByPriority_perm r ys).mem_iff.mp hb) with rfl | hb'
      · exact h
      · exact hy b hb' 
    · simp only [insertByPriority, if_neg h]
      refine List.pairwise_cons.mpr ⟨?_, hl⟩
      intro b hb
      rcases List.mem_cons.mp hb with rfl | hb'
      · exact (not_le.mp h).le
      · exact (hy b hb').trans (not_le.mp h).le

lemma insertByPriority_filter (r : RuleDefinition) (l : List RuleDefinition) (p : ℤ)
    (hl : List.Pairwise (fun a b => b.priority ≤ a.priority) l) :
    (insertByPriority r l).filter (fun x => x.priority == p)
      = l.filter (fun x => x.priority == p)
        ++ (if r.priority == p then [r] else []) := by
  induction l with
  | nil =>
    by_cases hr : r.priority == p <;> simp [insertByPriority, hr]
  | cons y ys ih =>
    obtain ⟨hy, hys⟩ := List.pairwise_cons.mp hl
    by_cases h : r.priority ≤ y.priority
    · simp only [insertByPriority, if_pos h, List.filter_cons]
      by_cases hyp : y.priority == p <;> simp [hyp, ih hys]
    · simp only [insertByPriority, if_neg h, List.filter_cons]
      by_cases hrp : r.priority == p
      · have hlt : y.priority < r.priority := not_le.mp h
        have hrp' : r.priority = p := by simpa using hrp
        have hy0 : (y.priority == p) = false := by
          simp only [beq_eq_false_iff_ne, ne_eq]
          intro he
          rw [← hrp'] at he
          exact absurd he (ne_of_lt hlt)
        have hys0 : ys.filter (fun x => x.priority == p) = [] := by
          rw [List.filter_eq_nil_iff]
          intro a ha
          have hle : a.priority ≤ y.priority := hy a ha
          simp only [beq_eq_false_iff_ne, ne_eq, Bool.not_eq_true]
          intro he
          rw [← hrp'] at he
          exact absurd he (ne_of_lt (lt_of_le_of_lt hle hlt))
        simp [hrp, hy0, hys0]
      · simp [hrp]

lemma foldl_insert_sorted (l : List RuleDefinition) :
    ∀ acc, List.Pairwise (fun a b => b.priority ≤ a.priority) acc →
      List.Pairwise (fun a b => b.priority ≤ a.priority)
        (l.foldl (fun a r => insertByPriority r a) acc) := by
  induction l with
  | nil => intro acc h; exact h
  | cons x xs ih =>
    intro acc h
    exact ih (insertByPriority x acc) (insertByPriority_sorted x acc h)

lemma foldl_insert_perm (l : List RuleDefinition) :
    ∀ acc, (l.foldl (fun a r => insertByPriority r a) acc).Perm (acc ++ l) := by
  induction l with
  | nil => intro acc; simp
  | cons x xs ih =>
    intro acc
    have h1 := ih (insertByPriority x acc)
    have h2 : (insertByPriority x acc ++ xs).Perm ((x :: acc) ++ xs) :=
      (insertByPriority_perm x acc).append_right xs
    have h3 : ((x :: acc) ++ xs).Perm (acc ++ x :: xs) := by
      simp only [List.cons_append]
      exact List.perm_middle.symm
    exact (h1.trans h2).trans h3

lemma foldl_insert_filter (l : List RuleDefinition) (p : ℤ) :
    ∀ acc, List.Pairwise (fun a b => b.priority ≤ a.priority) acc →
      (l.foldl (fun a r => insertByPriority r a) acc).filter (fun x => x.priority == p)
        = acc.filter (fun x => x.priority == p) ++ l.filter (fun x => x.priority == p) := by
  induction l with
  | nil => intro acc h; simp
  | cons x xs ih =>
    intro acc h
    rw [List.foldl_cons, ih (insertByPriority x acc) (insertByPriority_sorted x acc h),
      insertByPriority_filter x acc p h, List.filter_cons]
    by_cases hx : x.priority == p <;> simp [hx]

lemma get_active_rules_perm (rules : List RuleDefinition) :
    (get_active_rules rules).Perm (rules.filter (fun r => r.enabled)) := by
  simpa using foldl_insert_perm (rules.filter (fun r => r.enabled)) []

lemma get_active_rules_sorted (rules : List RuleDefinition) :
    List.Pairwise (fun a b => b.priority ≤ a.priority) (get_active_rules rules) :=
  foldl_insert_sorted _ [] List.Pairwise.nil

lemma get_active_rules_stable (rules : List RuleDefinition) (p : ℤ) :
    (get_active_rules rules).filter (fun r => r.priority == p)
      = (rules.filter (fun r => r.enabled)).filter (fun r => r.priority == p) := by
  simpa using foldl_insert_filter (rules.filter (fun r => r.enabled)) p [] List.Pairwise.nil

lemma evalLoop_eq_filterMap (md : MarketData) (l : List RuleDefinition) :
    ∀ out, evalLoop md l = some out → out = triggeredResults l md := by
  induction l with
  | nil =>
    intro out h
    simp only [evalLoop, Option.some.injEq] at h
    simp [triggeredResults, ← h]
  | cons r rs ih =>
    intro out h
    simp only [evalLoop] at h
    rcases her : evaluate_rule r md with _ | res
    · rw [her] at h; cases h
    · rw [her, Option.some_bind] at h
      rcases hrest : evalLoop md rs with _ | rest
      · rw [hrest] at h; cases h
      · rw [hrest] at h
        simp only [Option.map] at h
        injection h with h
        subst h
        have hrs := ih rest hrest
        subst hrs
        by_cases ht : res.triggered <;>
          simp [triggeredResults, List.filterMap_cons, her, ht]
  
/-- Counterexample for C1: two enabled rules of equal priority, listed as
"b" then "a", both triggering; `evaluate_all_rules` returns them in list
order ["b", "a"], which is not name-ascending — ties are broken by the
original insertion order (Python's stable sort), not by rule name. -/
theorem c1_counterexample :
    (evaluate_all_rules [ruleNamedB, ruleNamedA] mdUnit).map
        (fun l => l.map (fun r => r.rule_name)) = some ["b", "a"]
    ∧ ¬ List.Pairwise (fun a b : String => strLeB a b = true) ["b", "a"] := by
  refine ⟨by decide, by decide⟩

/-- Theorem C1 (amended): when no rule evaluation raises,
`evaluate_all_rules` returns exactly the triggered results of the enabled
rules, each rule independently evaluated (membership characterisation), in
the order of the enabled rules sorted by priority descending with ties
kept in their original order (permutation + sortedness + stability). -/
theorem c1_evaluate_all_rules_amended (rules : List RuleDefinition) (md : MarketData)
    (out : List RuleEvaluationResult)
    (h : evaluate_all_rules rules md = some out) :
    (out = triggeredResults (get_active_rules rules) md)
    ∧ (∀ res, res ∈ out ↔ (res.triggered = true ∧
        ∃ r, r ∈ rules ∧ r.enabled = true ∧ evaluate_rule r md = some res))
    ∧ (get_active_rules rules).Perm (rules.filter (fun r => r.enabled))
    ∧ List.Pairwise (fun a b => b.priority ≤ a.priority) (get_active_rules rules)
    ∧ (∀ p : ℤ, (get_active_rules rules).filter (fun r => r.priority == p)
        = (rules.filter (fun r => r.enabled)).filter (fun r => r.priority == p)) := by
  have hout : out = triggeredResults (get_active_rules rules) md :=
    evalLoop_eq_filterMap md (get_active_rules rules) out h
  refine ⟨hout, ?_, get_active_rules_perm rules, get_active_rules_sorted rules,
    get_active_rules_stable rules⟩
  intro res
  constructor
  · intro hres
    rw [hout] at hres
    obtain ⟨r, hr, hf⟩ := List.mem_filterMap.mp hres
    rcases her : evaluate_rule r md with _ | res'
    · rw [her] at hf; cases hf
    · rw [her, Option.some_bind] at hf
      by_cases ht : res'.triggered
      · rw [if_pos ht] at hf
        injection hf with hf
        subst hf
        have hmem : r ∈ rules.filter (fun x => x.enabled) :=
          (get_active_rules_perm rules).mem_iff.mp hr
        obtain ⟨hr2, hen2⟩ := List.mem_filter.mp hmem
        exact ⟨ht, r, hr2, hen2, her⟩
      · rw [if_neg ht] at hf
        cases hf
  · rintro ⟨ht, r, hr, hen, her⟩
    rw [hout]
    apply List.mem_filterMap.mpr
    refine ⟨r, ?_, ?_⟩
    · exact (get_active_rules_perm rules).mem_iff.mpr
        (List.mem_filter.mpr ⟨hr, hen⟩)
    · rw [her, Option.some_bind, if_pos ht]

/-- Witness for C1 (amended) at a concrete input: a single enabled
non-triggering rule gives the empty result list; its active set is a
permutation of its enabled rules. -/
theorem c1_amended_witness :
    (get_active_rules [ruleQuiet]).Perm ([ruleQuiet].filter (fun r => r.enabled)) :=
  (c1_evaluate_all_rules_amended [ruleQuiet] mdUnit [] (by decide)).2.2.1
